import Mathlib

/-!
Verification of the song-mix generation engine of the `mix` repository
(`main.py` and `app.py`).

Strings are embedded as lists of characters (`Str`).  Python's `int(str)`
is modelled for ASCII input: surrounding ASCII whitespace is stripped, an
optional single sign is accepted, and the remainder must be a non-empty
run of decimal digits.  (Python additionally accepts underscore digit
separators and non-ASCII digits; harmonic tags never contain those, so
they are outside the model.)
-/

abbrev Str := List Char

/-- ASCII whitespace accepted by Python's `int()` around a numeral. -/
def isPySpace (c : Char) : Bool :=
  c = ' ' || c = '\t' || c = '\n' || c = '\r' || c = '\x0b' || c = '\x0c'

/-- Value of a non-empty run of decimal digits, `none` otherwise. -/
def digitsVal (l : Str) : Option Nat :=
  if l ≠ [] ∧ l.all Char.isDigit then
    some (l.foldl (fun a c => a * 10 + (c.toNat - 48)) 0)
  else none

/-- Python's `int(s)` on ASCII input: strip whitespace, optional sign,
then a non-empty digit run. -/
def pyInt (s : Str) : Option Int :=
  let t := ((s.dropWhile isPySpace).reverse.dropWhile isPySpace).reverse
  match t with
  | '+' :: rest => (digitsVal rest).map (fun n => (n : Int))
  | '-' :: rest => (digitsVal rest).map (fun n => -(n : Int))
  | rest => (digitsVal rest).map (fun n => (n : Int))

/-- `SongMixGenerator.parse_camelot` (main.py lines 55-74): reject strings
shorter than 2; split into numeric prefix (all but the last character) and
upper-cased letter suffix (the last character); require the prefix to be a
Python integer in 1..12 and the letter to be A or B.  `Except.error`
stands for the raised `ValueError`. -/
def parse_camelot (camelot : Str) : Except String (Int × Char) :=
  if camelot.length < 2 then .error "invalid camelot format"
  else
    let number_str := camelot.dropLast
    let letter := (camelot.getLastD ' ').toUpper
    match pyInt number_str with
    | none => .error "invalid camelot number"
    | some number =>
      if ¬ (1 ≤ number ∧ number ≤ 12) then
        .error "camelot number must be between 1 and 12"
      else if letter ≠ 'A' ∧ letter ≠ 'B' then
        .error "camelot letter must be A or B"
      else .ok (number, letter)

/-- Whether `parse_camelot` raises (used to state the error-handling
claims). -/
def parseFails (camelot : Str) : Bool :=
  match parse_camelot camelot with
  | .error _ => true
  | .ok _ => false

/-- `SongMixGenerator.can_mix` (main.py lines 76-99): parse both tags,
returning `false` if either parse raises; otherwise the three Camelot
rules: same number same letter, same number different letter, or same
letter with ring-adjacent numbers (difference 1, or 11 for the 12-1
wraparound). -/
def can_mix (camelot1 camelot2 : Str) : Bool :=
  match parse_camelot camelot1, parse_camelot camelot2 with
  | .ok (num1, letter1), .ok (num2, letter2) =>
    if num1 = num2 ∧ letter1 = letter2 then true
    else if num1 = num2 ∧ letter1 ≠ letter2 then true
    else if letter1 = letter2 ∧
        ((num1 - num2).natAbs = 1 ∨ (num1 - num2).natAbs = 11) then true
    else false
  | _, _ => false

example : can_mix ['8', 'A'] ['9', 'A'] = true := by decide
example : can_mix ['8', 'A'] ['1', '0', 'A'] = false := by decide
example : parse_camelot ['8', 'a'] = .ok (8, 'A') := by rfl

/-- A catalog track (`Song` in main.py).  Distinct catalog entries are
distinct records; in the claims' inputs they always differ in some field,
so structural equality plays the role of Python object identity. -/
structure Song where
  name : String
  artist : String
  camelot : Str
  styles : List String
deriving DecidableEq, Repr

/-- The per-style index `songs_by_style` built at load time (main.py lines
38-40, app.py lines 31-32): for each song, one entry under each occurrence
of the style in its style list, in catalog order. -/
def songs_by_style (songs : List Song) (style : String) : List Song :=
  songs.flatMap (fun s =>
    s.styles.filterMap (fun st => if st = style then some s else none))

/-- `itertools.combinations(l, k)`: all k-element subsequences of `l`, in
lexicographic index order. -/
def combinations {α : Type} : Nat → List α → List (List α)
  | 0, _ => [[]]
  | _ + 1, [] => []
  | k + 1, x :: xs => (combinations k xs).map (x :: ·) ++ combinations (k + 1) xs

/-- The adjacency test of the search (main.py line 190): the first placed
song has no constraint, otherwise `can_mix` with the last placed song. -/
def canFollow (last : Option Song) (cand : Song) : Bool :=
  match last with
  | none => true
  | some l => can_mix l.camelot cand.camelot

/-- The memo dictionary of `_find_mixes_with_song_set`: keys are
`(position, last_song.name if last_song else None)` (main.py line 178). -/
abbrev Memo := List ((Nat × Option String) × List (List Song))

/-- The memoized recursion `dp(position, last_song)` of
`_find_mixes_with_song_set` (main.py lines 172-199), with the style-order
tail from the current position passed alongside the position and the memo
dictionary threaded explicitly.  At the end of the style order it yields
the single empty continuation; otherwise it consults the memo under
`(position, last song name)`, and on a miss loops over the candidates
(set members carrying the required style, in set iteration order): each
candidate passing the adjacency test contributes, for every suffix mix
found from the next position with itself as last song, that suffix with
the candidate prepended; the collected list is recorded in the memo and
returned. -/
def dp (song_set : List Song) : List String → Nat → Option Song → Memo →
    List (List Song) × Memo
  | [], _, _, memo => ([[]], memo)
  | required_style :: rest, pos, last, memo =>
    let key : Nat × Option String := (pos, last.map (·.name))
    match memo.lookup key with
    | some v => (v, memo)
    | none =>
      let candidates := song_set.filter (fun s => s.styles.contains required_style)
      let res := candidates.foldl (fun acc c =>
          if canFollow last c then
            let r1 := dp song_set rest (pos + 1) (some c) acc.2
            (acc.1 ++ r1.1.map (c :: ·), r1.2)
          else acc) ([], memo)
      (res.1, (key, res.1) :: res.2)

/-- `SongMixGenerator._find_mixes_with_song_set` (main.py lines 167-201):
run the memoized search from position 0 with no last song and an empty
memo.  The Python set of songs is embedded as its iteration-order list. -/
def find_mixes_with_song_set (song_set : List Song) (style_order : List String) :
    List (List Song) :=
  (dp song_set style_order 0 none []).1

/-- The plain (un-memoized) recursion over (position, last placed track)
that the memoized search is meant to implement: same candidate filtering,
same adjacency test, same accumulation order, no cache. -/
def plainMixes (song_set : List Song) (last : Option Song) :
    List String → List (List Song)
  | [] => [[]]
  | required_style :: rest =>
    (song_set.filter (fun s => s.styles.contains required_style)).flatMap
      (fun c =>
        if canFollow last c then
          (plainMixes song_set (some c) rest).map (c :: ·)
        else [])

/-- `SongMixGenerator.find_all_mixes` (main.py lines 139-165): empty style
order gives no mixes; a required style with no catalog entries gives no
mixes; otherwise every combination of 1..min(max_songs, N) catalog songs
is searched and the results concatenated (no exact-usage filter in this
entry point). -/
def find_all_mixes (songs : List Song) (max_songs : Nat)
    (style_order : List String) : List (List Song) :=
  if style_order = [] then []
  else if style_order.any (fun st => songs_by_style songs st = []) then []
  else
    (List.range' 1 (min max_songs songs.length)).flatMap (fun k =>
      (combinations k songs).flatMap (fun subset =>
        find_mixes_with_song_set subset style_order))

/-- Equality of the distinct-track set of a mix with a subset (the spec's
`set(mix) == subset`): mutual inclusion as lists. -/
def sameTrackSet (mix subset : List Song) : Bool :=
  mix.all (fun s => subset.contains s) && subset.all (fun s => mix.contains s)

/-- Modelled from the spec: `generate_mixes_map`, the method of the module
`song_mix_generator` that the web entry point `app.generate` calls; that
module is not in the repository snapshot (only its caller `app.py` is
under the sources).  Per spec sections 4.2-4.5: enumerate every subset of
size 1..min(max_songs, N) of the catalog; run the sequence search on each;
keep only the mixes whose set of distinct tracks equals the subset exactly
(the exact-usage filter); insert each subset with a non-empty surviving
list into the result mapping in enumeration order, omitting subsets with
no surviving mixes. -/
def generate_mixes_map (songs : List Song) (max_songs : Nat)
    (style_order : List String) : List (List Song × List (List Song)) :=
  (List.range' 1 (min max_songs songs.length)).flatMap (fun k =>
    (combinations k songs).filterMap (fun subset =>
      let kept := (find_mixes_with_song_set subset style_order).filter
        (fun m => sameTrackSet m subset)
      if kept = [] then none else some (subset, kept)))

/-- The spec's tag-parse failure conditions, as an independent predicate:
the letter suffix is missing (fewer than two characters), the numeric
prefix is not an integer, the integer is outside 1..12, or the
(upper-cased) letter is not A or B. -/
def specParseFailure (camelot : Str) : Bool :=
  camelot.length < 2 ||
  (pyInt camelot.dropLast).isNone ||
  (match pyInt camelot.dropLast with
   | some n => if 1 ≤ n ∧ n ≤ 12 then false else true
   | none => true) ||
  !((camelot.getLastD ' ').toUpper = 'A' || (camelot.getLastD ' ').toUpper = 'B')

/-- Positional style conformance of a mix against a style order: same
length, and the track at each position carries the style required there. -/
def stylesOk : List String → List Song → Bool
  | [], [] => true
  | required :: rest, s :: ms => s.styles.contains required && stylesOk rest ms
  | _, _ => false

/-! Concrete tracks used to instantiate the theorems: the spec's
end-to-end scenario catalog, and a pair of same-name tracks with
different harmonic tags. -/

def songA : Song := ⟨"A", "artistA", ['8', 'A'], ["fast"]⟩

def songB : Song := ⟨"B", "artistB", ['9', 'A'], ["drop"]⟩

def songC : Song := ⟨"C", "artistC", ['9', 'A'], ["fast", "drop"]⟩

def songDup1 : Song := ⟨"Dup", "artist1", ['1', 'A'], ["s"]⟩

def songDup2 : Song := ⟨"Dup", "artist2", ['6', 'A'], ["s"]⟩

/-- The membership reading of `sameTrackSet`. -/
theorem sameTrackSet_iff_mem {m S : List Song} (h : sameTrackSet m S = true) :
    ∀ t : Song, t ∈ m ↔ t ∈ S := by
  simp only [sameTrackSet, Bool.and_eq_true, List.all_eq_true, List.contains,
    List.elem_iff] at h
  intro t
  exact ⟨fun ht => h.1 t ht, fun ht => h.2 t ht⟩

/-- C5: Compatibility symmetry: for all harmonic tag strings x and y,
including malformed ones, `can_mix x y = can_mix y x`. -/
theorem can_mix_symmetric (c1 c2 : Str) : can_mix c1 c2 = can_mix c2 c1 := by
  unfold can_mix
  cases h1 : parse_camelot c1 with
  | error e1 => cases h2 : parse_camelot c2 <;> rfl
  | ok p1 =>
    cases h2 : parse_camelot c2 with
    | error e2 => rfl
    | ok p2 =>
      obtain ⟨n1, l1⟩ := p1
      obtain ⟨n2, l2⟩ := p2
      have habs : (n1 - n2).natAbs = (n2 - n1).natAbs := by omega
      by_cases hn : n1 = n2 <;> by_cases hl : l1 = l2
      · subst hn; subst hl; simp
      · subst hn
        have hl' : ¬ l2 = l1 := fun hq => hl hq.symm
        simp [hl, hl']
      · subst hl
        have hn' : ¬ n2 = n1 := fun hq => hn hq.symm
        simp [hn, hn', habs]
      · have hl' : ¬ l2 = l1 := fun hq => hl hq.symm
        have hn' : ¬ n2 = n1 := fun hq => hn hq.symm
        simp [hn, hn', hl, hl']

/-- C6: Compatibility correctness table: `can_mix` accepts same key,
relative key, ring-adjacent keys including the 12-1 wraparound, and
rejects a two-step move and a diagonal move. -/
theorem can_mix_correctness_table :
    can_mix ['8', 'A'] ['8', 'A'] = true ∧
    can_mix ['8', 'A'] ['8', 'B'] = true ∧
    can_mix ['8', 'A'] ['9', 'A'] = true ∧
    can_mix ['8', 'A'] ['7', 'A'] = true ∧
    can_mix ['1', 'A'] ['1', '2', 'A'] = true ∧
    can_mix ['8', 'A'] ['1', '0', 'A'] = false ∧
    can_mix ['8', 'A'] ['9', 'B'] = false := by decide

/-- C7: Fail-safe compatibility: tag parsing fails exactly under the
spec's four conditions (letter suffix missing, numeric prefix not an
integer, integer outside 1..12, letter not A/B), and `can_mix` never
propagates the error: whenever parsing fails for either argument it
returns false. -/
theorem parse_failure_exact_and_fail_safe :
    (∀ s : Str, parseFails s = specParseFailure s) ∧
    (∀ c1 c2 : Str, parseFails c1 = true ∨ parseFails c2 = true →
      can_mix c1 c2 = false) := by
  constructor
  · intro s
    by_cases hlen : s.length < 2
    · simp [parseFails, parse_camelot, specParseFailure, hlen]
    · cases hp : pyInt s.dropLast with
      | none => simp [parseFails, parse_camelot, specParseFailure, hlen, hp]
      | some n =>
        by_cases hr : 1 ≤ n ∧ n ≤ 12
        · by_cases hA : ((s.getLast?).getD ' ').toUpper = 'A'
          · simp [parseFails, parse_camelot, specParseFailure, hlen, hp, hr, hA]
          · by_cases hB : ((s.getLast?).getD ' ').toUpper = 'B' <;>
              simp [parseFails, parse_camelot, specParseFailure, hlen, hp, hr,
                hA, hB]
        · simp [parseFails, parse_camelot, specParseFailure, hlen, hp, hr]
  · intro c1 c2 h
    unfold can_mix
    rcases h with h | h
    · unfold parseFails at h
      cases h1 : parse_camelot c1 with
      | error e1 => cases h2 : parse_camelot c2 <;> rfl
      | ok p1 => rw [h1] at h; simp at h
    · unfold parseFails at h
      cases h2 : parse_camelot c2 with
      | error e2 => cases h1 : parse_camelot c1 <;> rfl
      | ok p2 => rw [h2] at h; simp at h

/-- C9: Boundary behavior: `find_all_mixes` with `max_songs = 0` or with
an empty style order returns the empty result on every catalog (and, being
a total function, raises nothing). -/
theorem boundary_zero_max_or_empty_order :
    (∀ (songs : List Song) (style_order : List String),
      find_all_mixes songs 0 style_order = []) ∧
    (∀ (songs : List Song) (max_songs : Nat),
      find_all_mixes songs max_songs [] = []) := by
  constructor
  · intro songs so
    unfold find_all_mixes
    split_ifs <;> simp [Nat.zero_min]
  · intro songs ms
    rfl

/-- The result of `parse_camelot` depends on the final character of the
tag only through its upper-cased form. -/
theorem parse_camelot_last_toUpper (p : Str) (c c' : Char)
    (h : c.toUpper = c'.toUpper) :
    parse_camelot (p ++ [c]) = parse_camelot (p ++ [c']) := by
  unfold parse_camelot
  simp only [List.length_append, List.length_cons, List.length_nil,
    List.dropLast_concat, List.getLastD_concat, h]

/-- C10: Letter-case insensitivity of the compatibility rule: replacing
the trailing character of either argument by one with the same upper-cased
form (in particular `a`/`A` or `b`/`B`) never changes `can_mix`, and a tag
with a lowercase letter suffix parses successfully: `8a` parses to
`(8, A)` and mixes with `8A`. -/
theorem can_mix_letter_case_insensitive :
    (∀ (p t : Str) (c c' : Char), c.toUpper = c'.toUpper →
      can_mix (p ++ [c]) t = can_mix (p ++ [c']) t ∧
      can_mix t (p ++ [c]) = can_mix t (p ++ [c'])) ∧
    parse_camelot ['8', 'a'] = .ok (8, 'A') ∧
    can_mix ['8', 'a'] ['8', 'A'] = true := by
  refine ⟨fun p t c c' h => ?_, by rfl, by rfl⟩
  constructor
  · unfold can_mix
    rw [parse_camelot_last_toUpper p c c' h]
  · unfold can_mix
    rw [parse_camelot_last_toUpper p c c' h]

theorem can_mix_letter_case_insensitive_witness :
    can_mix (['8'] ++ ['a']) ['8', 'A'] = can_mix (['8'] ++ ['A']) ['8', 'A'] ∧
    can_mix ['8', 'A'] (['8'] ++ ['a']) = can_mix ['8', 'A'] (['8'] ++ ['A']) :=
  can_mix_letter_case_insensitive.1 ['8'] ['8', 'A'] 'a' 'A' (by decide)

/-- C8: No-candidate termination: if some style required by the style
order has no entry in the catalog's style index, `find_all_mixes` returns
the empty result. -/
theorem empty_style_gives_empty_result (songs : List Song) (max_songs : Nat)
    (style_order : List String) (style : String)
    (h1 : style ∈ style_order) (h2 : songs_by_style songs style = []) :
    find_all_mixes songs max_songs style_order = [] := by
  have hany : style_order.any (fun st => songs_by_style songs st = []) = true := by
    rw [List.any_eq_true]
    exact ⟨style, h1, by simp [h2]⟩
  simp [find_all_mixes, hany]

theorem empty_style_gives_empty_result_witness :
    find_all_mixes [] 1 ["fast"] = [] :=
  empty_style_gives_empty_result [] 1 ["fast"] "fast" (by decide) (by decide)

/-- C2 (code behavior at the failing input): the memoized search and the
plain recursion disagree on a set of two same-name tracks with different
harmonic tags: the memo key (position, last song name) conflates the two
tracks, so the suffixes computed after placing the 1A track are reused
after placing the 6A track. -/
theorem memoized_search_differs_from_plain_recursion :
    find_mixes_with_song_set [songDup1, songDup2] ["s", "s"]
      = [[songDup1, songDup1], [songDup2, songDup1]] ∧
    plainMixes [songDup1, songDup2] none ["s", "s"]
      = [[songDup1, songDup1], [songDup2, songDup2]] ∧
    find_mixes_with_song_set [songDup1, songDup2] ["s", "s"]
      ≠ plainMixes [songDup1, songDup2] none ["s", "s"] := by
  refine ⟨by decide, by decide, by decide⟩

/-- C3 (code behavior at the failing input): on a catalog with two
same-name tracks carrying incompatible tags 1A and 6A, the engine output
contains the mix [6A track, 1A track] whose only transition fails
`can_mix` — the adjacency invariant is broken by the memo-key collision. -/
theorem find_all_mixes_returns_incompatible_adjacent_pair :
    [songDup2, songDup1] ∈ find_all_mixes [songDup1, songDup2] 2 ["s", "s"] ∧
    can_mix songDup2.camelot songDup1.camelot = false := by
  refine ⟨by decide, by decide⟩

/-- C1: Exact-usage invariant: every mix listed under a subset S in the
result mapping uses exactly the tracks of S — its members are the members
of S. -/
theorem exact_usage_invariant (songs : List Song) (max_songs : Nat)
    (style_order : List String) (S : List Song) (mixes : List (List Song))
    (hS : (S, mixes) ∈ generate_mixes_map songs max_songs style_order)
    (m : List Song) (hm : m ∈ mixes) :
    ∀ t : Song, t ∈ m ↔ t ∈ S := by
  unfold generate_mixes_map at hS
  rw [List.mem_flatMap] at hS
  obtain ⟨k, -, hS⟩ := hS
  rw [List.mem_filterMap] at hS
  obtain ⟨subset, -, hsome⟩ := hS
  simp only at hsome
  split at hsome
  · exact absurd hsome (by simp)
  · simp only [Option.some.injEq, Prod.mk.injEq] at hsome
    obtain ⟨hsub, hkept⟩ := hsome
    subst hsub
    rw [← hkept] at hm
    rw [List.mem_filter] at hm
    exact sameTrackSet_iff_mem hm.2

theorem exact_usage_invariant_witness :
    songC ∈ [songC, songC] ↔ songC ∈ [songC] :=
  exact_usage_invariant [songA, songB, songC] 2 ["fast", "drop"]
    [songC] [[songC, songC]] (by decide) [songC, songC] (by decide) songC

/-- A successful association-list lookup returns a stored pair. -/
theorem lookup_mem {k : Nat × Option String} {v : List (List Song)} :
    ∀ {memo : Memo}, memo.lookup k = some v → (k, v) ∈ memo := by
  intro memo
  induction memo with
  | nil => intro h; simp [List.lookup] at h
  | cons e es ihm =>
    obtain ⟨a, b⟩ := e
    intro h
    rw [List.lookup_cons] at h
    cases hak : (k == a) with
    | true =>
      rw [hak] at h
      obtain rfl : b = v := by simpa using h
      have : k = a := eq_of_beq hak
      subst this
      exact List.mem_cons_self _ _
    | false =>
      rw [hak] at h
      exact List.mem_cons_of_mem _ (ihm h)

/-- Memo soundness for the style-position property: every stored list at a
key with position p holds only mixes that are positionally
style-conformant with the style order from position p on. -/
def MemoOk (so : List String) (memo : Memo) : Prop :=
  ∀ k v, ((k, v) ∈ memo) → ∀ m ∈ v, stylesOk (so.drop k.1) m = true

/-- The candidate loop of `dp` preserves style conformance and the memo
invariant, given that the recursive calls at the next position do. -/
theorem dp_fold_invariant (so : List String) (song_set : List Song)
    (required : String) (rest : List String) (pos : Nat) (last : Option Song)
    (IH : ∀ (last' : Option Song) (memo' : Memo), MemoOk so memo' →
      (∀ m ∈ (dp song_set rest (pos + 1) last' memo').1,
        stylesOk rest m = true) ∧
      MemoOk so (dp song_set rest (pos + 1) last' memo').2) :
    ∀ (cands : List Song) (acc : List (List Song) × Memo),
      (∀ c ∈ cands, c.styles.contains required = true) →
      (∀ m ∈ acc.1, stylesOk (required :: rest) m = true) →
      MemoOk so acc.2 →
      (∀ m ∈ (cands.foldl (fun acc c =>
          if canFollow last c then
            (acc.1 ++ ((dp song_set rest (pos + 1) (some c) acc.2).1).map (c :: ·),
             (dp song_set rest (pos + 1) (some c) acc.2).2)
          else acc) acc).1, stylesOk (required :: rest) m = true) ∧
      MemoOk so ((cands.foldl (fun acc c =>
          if canFollow last c then
            (acc.1 ++ ((dp song_set rest (pos + 1) (some c) acc.2).1).map (c :: ·),
             (dp song_set rest (pos + 1) (some c) acc.2).2)
          else acc) acc).2) := by
  intro cands
  induction cands with
  | nil => intro acc _ h1 h2; exact ⟨h1, h2⟩
  | cons c cs ihc =>
    intro acc hcand h1 h2
    rw [List.foldl_cons]
    by_cases hcf : canFollow last c = true
    · rw [if_pos hcf]
      apply ihc
      · intro c' hc'
        exact hcand c' (List.mem_cons_of_mem _ hc')
      · intro m hm
        rcases List.mem_append.mp hm with hm | hm
        · exact h1 m hm
        · obtain ⟨m', hm', rfl⟩ := List.mem_map.mp hm
          have hrest := (IH (some c) acc.2 h2).1 m' hm'
          have hcr : c.styles.contains required = true :=
            hcand c (List.mem_cons_self _ _)
          simp only [stylesOk, Bool.and_eq_true]
          exact ⟨hcr, hrest⟩
      · exact (IH (some c) acc.2 h2).2
    · rw [if_neg hcf]
      apply ihc
      · intro c' hc'
        exact hcand c' (List.mem_cons_of_mem _ hc')
      · exact h1
      · exact h2

/-- `dp` returns only style-conformant mixes and preserves the memo
invariant: the memo key forgets the last track's tag and artist, but the
style constraints depend only on the position, so they survive memo-key
collisions. -/
theorem dp_memo_invariant (so : List String) (song_set : List Song)
    (remaining : List String) :
    ∀ (pos : Nat) (last : Option Song) (memo : Memo),
      remaining = so.drop pos → MemoOk so memo →
      (∀ m ∈ (dp song_set remaining pos last memo).1,
        stylesOk remaining m = true) ∧
      MemoOk so (dp song_set remaining pos last memo).2 := by
  induction remaining with
  | nil =>
    intro pos last memo hdrop hmemo
    constructor
    · intro m hm
      have : m = [] := by simpa [dp] using hm
      subst this
      rfl
    · simpa [dp] using hmemo
  | cons required rest ih =>
    intro pos last memo hdrop hmemo
    have hrest : rest = so.drop (pos + 1) := by
      rw [← List.tail_drop, ← hdrop]
      rfl
    cases hlk : memo.lookup (pos, last.map (·.name)) with
    | some v =>
      have hdp : dp song_set (required :: rest) pos last memo = (v, memo) := by
        simp [dp, hlk]
      rw [hdp]
      refine ⟨fun m hm => ?_, hmemo⟩
      have := hmemo _ _ (lookup_mem hlk) m hm
      rw [hdrop]
      exact this
    | none =>
      have hfold := dp_fold_invariant so song_set required rest pos last
        (fun last' memo' hmo => ih (pos + 1) last' memo' hrest hmo)
        (song_set.filter (fun s => s.styles.contains required))
        ([], memo)
        (fun c hc => (List.mem_filter.mp hc).2)
        (by intro m hm; exact absurd hm (List.not_mem_nil m))
        hmemo
      have hdp : dp song_set (required :: rest) pos last memo =
          (((song_set.filter (fun s => s.styles.contains required)).foldl
              (fun acc c =>
                if canFollow last c then
                  (acc.1 ++ ((dp song_set rest (pos + 1) (some c) acc.2).1).map (c :: ·),
                   (dp song_set rest (pos + 1) (some c) acc.2).2)
                else acc) ([], memo)).1,
           ((pos, last.map (·.name)),
            ((song_set.filter (fun s => s.styles.contains required)).foldl
              (fun acc c =>
                if canFollow last c then
                  (acc.1 ++ ((dp song_set rest (pos + 1) (some c) acc.2).1).map (c :: ·),
                   (dp song_set rest (pos + 1) (some c) acc.2).2)
                else acc) ([], memo)).1) ::
            ((song_set.filter (fun s => s.styles.contains required)).foldl
              (fun acc c =>
                if canFollow last c then
                  (acc.1 ++ ((dp song_set rest (pos + 1) (some c) acc.2).1).map (c :: ·),
                   (dp song_set rest (pos + 1) (some c) acc.2).2)
                else acc) ([], memo)).2) := by
        simp [dp, hlk]
      rw [hdp]
      constructor
      · exact hfold.1
      · intro k v hkv m hm
        rcases List.mem_cons.mp hkv with hkv | hkv
        · rw [Prod.mk.injEq] at hkv
          obtain ⟨rfl, rfl⟩ := hkv
          show stylesOk (so.drop pos) m = true
          rw [← hdrop]
          exact hfold.1 m hm
        · exact hfold.2 k v hkv m hm

/-- `stylesOk` read positionally: the mix has the style order's length and
carries the required style at every position. -/
theorem stylesOk_positional :
    ∀ (so : List String) (m : List Song), stylesOk so m = true →
      m.length = so.length ∧
      ∀ i (hi : i < so.length) (hi' : i < m.length),
        so.get ⟨i, hi⟩ ∈ (m.get ⟨i, hi'⟩).styles := by
  intro so
  induction so with
  | nil =>
    intro m h
    cases m with
    | nil => exact ⟨rfl, fun i hi _ => absurd hi (Nat.not_lt_zero i)⟩
    | cons s ms => simp [stylesOk] at h
  | cons req rest ih =>
    intro m h
    cases m with
    | nil => simp [stylesOk] at h
    | cons s ms =>
      simp only [stylesOk, Bool.and_eq_true] at h
      obtain ⟨h1, h2⟩ := h
      obtain ⟨hlen, hpos⟩ := ih ms h2
      refine ⟨by simp [hlen], ?_⟩
      intro i hi hi'
      cases i with
      | zero => exact List.elem_iff.mp h1
      | succ j =>
        exact hpos j (Nat.lt_of_succ_lt_succ hi) (Nat.lt_of_succ_lt_succ hi')

/-- C4: Style-position invariant: every mix returned by the engine has the
style order's length, and the track placed at each position carries the
style required there.  This survives the memo-key collision because the
memo key retains the position. -/
theorem style_position_invariant (songs : List Song) (max_songs : Nat)
    (style_order : List String) (m : List Song)
    (hm : m ∈ find_all_mixes songs max_songs style_order) :
    m.length = style_order.length ∧
    ∀ i (hi : i < style_order.length) (hi' : i < m.length),
      style_order.get ⟨i, hi⟩ ∈ (m.get ⟨i, hi'⟩).styles := by
  apply stylesOk_positional
  unfold find_all_mixes at hm
  split_ifs at hm with h1 h2
  · exact absurd hm (List.not_mem_nil m)
  · exact absurd hm (List.not_mem_nil m)
  · rw [List.mem_flatMap] at hm
    obtain ⟨k, -, hm⟩ := hm
    rw [List.mem_flatMap] at hm
    obtain ⟨subset, -, hm⟩ := hm
    have hmain := dp_memo_invariant style_order subset style_order 0 none []
      (by rw [List.drop_zero])
      (fun kk vv hkv => absurd hkv (List.not_mem_nil _))
    exact hmain.1 m hm

theorem style_position_invariant_witness :
    ([songA] : List Song).length = (["fast"] : List String).length ∧
    ∀ i (hi : i < (["fast"] : List String).length)
      (hi' : i < ([songA] : List Song).length),
      (["fast"] : List String).get ⟨i, hi⟩ ∈
        (([songA] : List Song).get ⟨i, hi'⟩).styles :=
  style_position_invariant [songA] 1 ["fast"] [songA] (by decide)

theorem parse_failure_exact_and_fail_safe_witness :
    can_mix ['X'] ['8', 'A'] = false :=
  parse_failure_exact_and_fail_safe.2 ['X'] ['8', 'A'] (Or.inl (by decide))
